import Mathlib
set_option maxHeartbeats 1000000
set_option maxRecDepth 100000
/-- One call into the external ISP memory-primitive layer. -/
inductive Event where
  | writeFlash (addr b pollTimeout : Nat)
  | flushPage (addr b : Nat)
  | writeEEPROM (addr b : Nat)
  | readFlash (addr : Nat)
  | readEEPROM (addr : Nat)
  deriving DecidableEq

/-- The mutable globals of main.c that form the programming session.
prog_state: 0 = IDLE, 1 = WRITEFLASH, 2 = READFLASH, 3 = READEEPROM,
4 = WRITEEEPROM (values from usbasp.h, mirrored by the older main.c).
idleRate belongs to the unrelated HID keyboard feature but is written by
the class-request branch of usbFunctionSetup, so it is kept here. -/
structure Session where
  prog_state : Nat
  prog_sck : Nat
  prog_address_newmode : Nat
  prog_address : Nat
  prog_nbytes : Nat
  prog_pagesize : Nat
  prog_blockflags : Nat
  prog_pagecounter : Nat
  idleRate : Nat
  deriving DecidableEq

/-- Power-up session: prog_state = PROG_STATE_IDLE, prog_address_newmode = 0,
prog_nbytes = 0; the remaining fields start at an arbitrary value, taken
here to be 0. -/
def session0 : Session :=
  { prog_state := 0, prog_sck := 0, prog_address_newmode := 0,
    prog_address := 0, prog_nbytes := 0, prog_pagesize := 0,
    prog_blockflags := 0, prog_pagecounter := 0, idleRate := 0 }

/-- A concrete session state used to exercise the writer with a
512-byte page size. -/
def sess510 : Session :=
  { session0 with prog_state := 1, prog_pagesize := 512, prog_pagecounter := 0, prog_nbytes := 256 }

/-- The vendor-request dispatch of usbFunctionSetup (main.c lines 116-203).
Command kinds (usbasp.h, numbered 1-10 in protocol order): 1 CONNECT,
2 DISCONNECT, 3 TRANSMIT, 4 READFLASH, 5 ENABLEPROG, 6 WRITEFLASH,
7 READEEPROM, 8 WRITEEEPROM, 9 SETLONGADDRESS, 10 SETISPSCK.
Returns the reply length (0xff declares a chunked transfer) and the new
session.  Reply payload bytes and the isp / led side effects of the
single-shot commands are external and not modelled. -/
def setupVendorRequest (st : Session) (d1 d2 d3 d4 d5 d6 d7 : Nat) :
    Nat × Session :=
  if d1 = 1 then
    -- USBASP_FUNC_CONNECT: sck option and ispConnect are external;
    -- compatibility mode of address delivering is reset
    (0, { st with prog_address_newmode := 0 })
  else if d1 = 2 then
    (0, st)
  else if d1 = 3 then
    (4, st)
  else if d1 = 4 then
    (255, { st with
      prog_address := if st.prog_address_newmode = 0
        then ((d3 <<< 8) ||| d2) % 4294967296 else st.prog_address,
      prog_nbytes := ((d7 <<< 8) ||| d6) % 65536,
      prog_state := 2 })
  else if d1 = 5 then
    (1, st)
  else if d1 = 6 then
    (255, { st with
      prog_address := if st.prog_address_newmode = 0
        then ((d3 <<< 8) ||| d2) % 4294967296 else st.prog_address,
      prog_pagesize := (d4 + ((d5 &&& 240) <<< 4)) % 65536,
      prog_blockflags := d5 &&& 15,
      prog_pagecounter := if (d5 &&& 15) &&& 1 ≠ 0
        then ((d4 + ((d5 &&& 240) <<< 4)) % 65536) % 256
        else st.prog_pagecounter,
      prog_nbytes := ((d7 <<< 8) ||| d6) % 65536,
      prog_state := 1 })
  else if d1 = 7 then
    (255, { st with
      prog_address := if st.prog_address_newmode = 0
        then ((d3 <<< 8) ||| d2) % 4294967296 else st.prog_address,
      prog_nbytes := ((d7 <<< 8) ||| d6) % 65536,
      prog_state := 3 })
  else if d1 = 8 then
    (255, { st with
      prog_address := if st.prog_address_newmode = 0
        then ((d3 <<< 8) ||| d2) % 4294967296 else st.prog_address,
      prog_pagesize := 0,
      prog_blockflags := 0,
      prog_nbytes := ((d7 <<< 8) ||| d6) % 65536,
      prog_state := 4 })
  else if d1 = 9 then
    -- USBASP_FUNC_SETLONGADDRESS: the unsigned long load of data[2..5]
    -- on the little-endian AVR target
    (0, { st with
      prog_address_newmode := 1,
      prog_address :=
        (d2 + 256 * d3 + 65536 * d4 + 16777216 * d5) % 4294967296 })
  else if d1 = 10 then
    (1, { st with prog_sck := d2 % 256 })
  else
    (0, st)

/-- usbFunctionSetup (main.c lines 97-208): the HID class-request branch
followed by the vendor dispatch. d0 is bmRequestType, d1 is bRequest,
d2-d7 the remaining setup bytes.  USBRQ_TYPE_MASK = 0x60,
USBRQ_TYPE_CLASS = 0x20; HID requests GET_REPORT = 1, GET_IDLE = 2,
SET_IDLE = 0x0a. -/
def usbFunctionSetup (st : Session) (d0 d1 d2 d3 d4 d5 d6 d7 : Nat) :
    Nat × Session :=
  if d0 &&& 96 = 32 then
    if d1 = 1 then (2, st)
    else if d1 = 2 then (1, st)
    else if d1 = 10 then (1, { st with idleRate := d3 % 256 })
    else setupVendorRequest st d1 d2 d3 d4 d5 d6 d7
  else setupVendorRequest st d1 d2 d3 d4 d5 d6 d7

/-- The fill loop of usbFunctionRead (main.c lines 221-228): one read
primitive per byte, address incremented per byte. -/
def readLoop (st : Session) : Nat → Session × List Event
  | 0 => (st, [])
  | n + 1 =>
    let e := if st.prog_state = 2 then Event.readFlash st.prog_address
             else Event.readEEPROM st.prog_address
    let st1 := { st with prog_address := (st.prog_address + 1) % 4294967296 }
    let r := readLoop st1 n
    (r.1, e :: r.2)

/-- usbFunctionRead (main.c lines 210-236): returns the chunk length
served (0xff on a protocol-state violation), the new session and the
primitive calls made. -/
def usbFunctionRead (st : Session) (len : Nat) : Nat × Session × List Event :=
  if st.prog_state ≠ 2 ∧ st.prog_state ≠ 3 then
    (255, st, [])
  else
    let r := readLoop st len
    let st2 := if len < 8 then { r.1 with prog_state := 0 } else r.1
    (len, st2, r.2)

/-- A sequence of reader chunk calls; events are concatenated. -/
def readChunks (st : Session) : List Nat → Session × List Event
  | [] => (st, [])
  | l :: rest =>
    let r := usbFunctionRead st l
    let r2 := readChunks r.2.1 rest
    (r2.1, r.2.2 ++ r2.2)

/-- The tail of the per-byte writer loop body (main.c lines 272-286):
prog_nbytes is decremented, on reaching 0 the state goes IDLE, the
forced final page flush fires if the LAST block flag is set and a page
is partially filled, the complete flag is raised; prog_address is
incremented in every branch. -/
def finishByte (st : Session) (b : Nat) (evs : List Event) :
    Session × List Event × Bool :=
  let nb := (st.prog_nbytes + 65535) % 65536
  let a2 := (st.prog_address + 1) % 4294967296
  if nb = 0 then
    let evs2 :=
      if st.prog_blockflags &&& 2 ≠ 0 ∧ st.prog_pagecounter ≠ st.prog_pagesize
      then evs ++ [Event.flushPage st.prog_address b] else evs
    ({ st with prog_nbytes := nb, prog_state := 0, prog_address := a2 },
     evs2, true)
  else
    ({ st with prog_nbytes := nb, prog_address := a2 }, evs, false)

/-- One iteration of the usbFunctionWrite loop (main.c lines 249-287)
for the byte b: flash unpaged, flash paged with the 8-bit page
countdown, or EEPROM; then the common tail. The returned Bool reports
whether prog_nbytes reached 0 at this byte. -/
def writeStep (st : Session) (b : Nat) : Session × List Event × Bool :=
  if st.prog_state = 1 then
    if st.prog_pagesize = 0 then
      finishByte st b [Event.writeFlash st.prog_address b 1]
    else
      let pc2 := (st.prog_pagecounter + 255) % 256
      if pc2 = 0 then
        finishByte { st with prog_pagecounter := st.prog_pagesize % 256 } b
          [Event.writeFlash st.prog_address b 0,
           Event.flushPage st.prog_address b]
      else
        finishByte { st with prog_pagecounter := pc2 } b
          [Event.writeFlash st.prog_address b 0]
  else
    finishByte st b [Event.writeEEPROM st.prog_address b]

/-- The usbFunctionWrite loop over the chunk bytes, threading the
retVal variable (set to 1 when prog_nbytes reaches 0). -/
def writeLoop (st : Session) (retVal : Nat) : List Nat → Nat × Session × List Event
  | [] => (retVal, st, [])
  | b :: rest =>
    let s := writeStep st b
    let r := writeLoop s.1 (if s.2.2 then 1 else retVal) rest
    (r.1, r.2.1, s.2.1 ++ r.2.2)

/-- usbFunctionWrite (main.c lines 238-290): 0xff on a protocol-state
violation, otherwise the loop over the chunk with retVal starting at 0. -/
def usbFunctionWrite (st : Session) (data : List Nat) :
    Nat × Session × List Event :=
  if st.prog_state ≠ 1 ∧ st.prog_state ≠ 4 then
    (255, st, [])
  else
    writeLoop st 0 data

/-- A sequence of writer chunk calls; events are concatenated. -/
def writeChunks (st : Session) : List (List Nat) → Session × List Event
  | [] => (st, [])
  | c :: rest =>
    let r := usbFunctionWrite st c
    let r2 := writeChunks r.2.1 rest
    (r2.1, r.2.2 ++ r2.2)

/-- The per-byte trace of a write transfer: the session immediately
after each byte together with the events emitted for that byte. -/
def eepromWrites (a : Nat) : List Nat → List Event
  | [] => []
  | b :: rest =>
    Event.writeEEPROM a b :: eepromWrites ((a + 1) % 4294967296) rest

def runStates (st : Session) : List Nat → List (Session × List Event)
  | [] => []
  | b :: rest =>
    let s := writeStep st b
    (s.1, s.2.1) :: runStates s.1 rest

/-- Page-flush calls in a trace, as address and payload-byte pairs. -/
def flushPairs (evs : List Event) : List (Nat × Nat) :=
  evs.filterMap (fun e => match e with
    | Event.flushPage a b => some (a, b)
    | _ => none)

/-- Addresses of the page-flush calls in a trace. -/
def flushAddrs (evs : List Event) : List Nat :=
  (flushPairs evs).map Prod.fst

/-- Whether a trace contains a page-flush call. -/
def hasFlush (evs : List Event) : Bool :=
  evs.any (fun e => match e with
    | Event.flushPage _ _ => true
    | _ => false)

/-- Reference page-countdown: the byte indices (0-based, within the next
n bytes) at which the paged flash branch flushes, given the current
8-bit countdown value pc and the 16-bit page size ps. -/
def flushPattern (pc ps : Nat) : Nat → List Nat
  | 0 => []
  | n + 1 =>
    let pc2 := (pc + 255) % 256
    if pc2 = 0 then 0 :: (flushPattern (ps % 256) ps n).map (· + 1)
    else (flushPattern pc2 ps n).map (· + 1)

/-- Reference page-countdown: the countdown value after n bytes of the
paged flash branch. -/
def pcFinal (pc ps : Nat) : Nat → Nat
  | 0 => pc
  | n + 1 =>
    let pc2 := (pc + 255) % 256
    pcFinal (if pc2 = 0 then ps % 256 else pc2) ps n

theorem writeStep_pagesize (st : Session) (b : Nat) :
    (writeStep st b).1.prog_pagesize = st.prog_pagesize := by
  simp [writeStep, finishByte, apply_ite Prod.fst,
    apply_ite Session.prog_pagesize]

theorem writeStep_blockflags (st : Session) (b : Nat) :
    (writeStep st b).1.prog_blockflags = st.prog_blockflags := by
  simp [writeStep, finishByte, apply_ite Prod.fst,
    apply_ite Session.prog_blockflags]

theorem writeStep_address (st : Session) (b : Nat) :
    (writeStep st b).1.prog_address = (st.prog_address + 1) % 4294967296 := by
  simp [writeStep, finishByte, apply_ite Prod.fst,
    apply_ite Session.prog_address]

theorem writeStep_nbytes (st : Session) (b : Nat) :
    (writeStep st b).1.prog_nbytes = (st.prog_nbytes + 65535) % 65536 := by
  simp [writeStep, finishByte, apply_ite Prod.fst,
    apply_ite Session.prog_nbytes]

theorem writeStep_hit (st : Session) (b : Nat) :
    (writeStep st b).2.2 = decide ((st.prog_nbytes + 65535) % 65536 = 0) := by
  by_cases h : (st.prog_nbytes + 65535) % 65536 = 0 <;>
    simp [writeStep, finishByte, h, apply_ite Prod.snd]

theorem writeStep_state (st : Session) (b : Nat) :
    (writeStep st b).1.prog_state =
      if (st.prog_nbytes + 65535) % 65536 = 0 then 0 else st.prog_state := by
  by_cases h : (st.prog_nbytes + 65535) % 65536 = 0 <;>
    simp [writeStep, finishByte, h, apply_ite Prod.fst,
      apply_ite Session.prog_state]

theorem writeStep_pagecounter (st : Session) (b : Nat) :
    (writeStep st b).1.prog_pagecounter =
      if st.prog_state = 1 ∧ st.prog_pagesize ≠ 0 then
        (if (st.prog_pagecounter + 255) % 256 = 0 then st.prog_pagesize % 256
         else (st.prog_pagecounter + 255) % 256)
      else st.prog_pagecounter := by
  by_cases h1 : st.prog_state = 1 <;>
    by_cases h2 : st.prog_pagesize = 0 <;>
      by_cases h3 : (st.prog_pagecounter + 255) % 256 = 0 <;>
        simp [writeStep, finishByte, h1, h2, h3, apply_ite Prod.fst,
          apply_ite Session.prog_pagecounter]

theorem writeStep_pc_lt (st : Session) (b : Nat)
    (h : st.prog_pagecounter < 256) :
    (writeStep st b).1.prog_pagecounter < 256 := by
  rw [writeStep_pagecounter]
  split
  · split <;> omega
  · exact h

theorem nb_dec (n : Nat) (h1 : 1 ≤ n) (h2 : n ≤ 65535) :
    (n + 65535) % 65536 = n - 1 := by omega

theorem mod_add_mod_step (a k : Nat) :
    ((a + 1) % 4294967296 + k) % 4294967296 = (a + (k + 1)) % 4294967296 := by
  rw [Nat.mod_add_mod]
  ring_nf

theorem writeLoop_append (l1 l2 : List Nat) : ∀ (st : Session) (r : Nat),
    writeLoop st r (l1 ++ l2) =
      ((writeLoop (writeLoop st r l1).2.1 (writeLoop st r l1).1 l2).1,
       (writeLoop (writeLoop st r l1).2.1 (writeLoop st r l1).1 l2).2.1,
       (writeLoop st r l1).2.2 ++
         (writeLoop (writeLoop st r l1).2.1 (writeLoop st r l1).1 l2).2.2) := by
  induction l1 with
  | nil => intro st r; simp [writeLoop]
  | cons b rest ih =>
    intro st r
    simp only [List.cons_append, writeLoop, List.append_eq, ih, List.append_assoc]

theorem writeLoop_retVal (data : List Nat) : ∀ (st : Session) (r : Nat),
    (writeLoop st r data).2 = (writeLoop st 0 data).2 := by
  induction data with
  | nil => intro st r; simp [writeLoop]
  | cons b rest ih =>
    intro st r
    simp only [writeLoop]
    rw [ih _ (if (writeStep st b).2.2 then 1 else r),
      ih _ (if (writeStep st b).2.2 then 1 else 0)]

theorem writeLoop_run (data : List Nat) : ∀ (st : Session) (r : Nat),
    (st.prog_state = 1 ∨ st.prog_state = 4) →
    data.length ≤ st.prog_nbytes → st.prog_nbytes ≤ 65535 →
    st.prog_address < 4294967296 →
    (writeLoop st r data).2.1.prog_nbytes = st.prog_nbytes - data.length ∧
    (writeLoop st r data).2.1.prog_address =
      (st.prog_address + data.length) % 4294967296 ∧
    (writeLoop st r data).2.1.prog_pagesize = st.prog_pagesize ∧
    (writeLoop st r data).2.1.prog_blockflags = st.prog_blockflags ∧
    (writeLoop st r data).2.1.prog_state =
      (if data.length = st.prog_nbytes ∧ data ≠ [] then 0 else st.prog_state) ∧
    (writeLoop st r data).1 =
      (if data.length = st.prog_nbytes ∧ data ≠ [] then 1 else r) := by
  induction data with
  | nil =>
    intro st r hst hlen hub ha
    simp [writeLoop, Nat.mod_eq_of_lt ha]
  | cons b rest ih =>
    intro st r hst hlen hub ha
    have hn1 : 1 ≤ st.prog_nbytes := by
      simp at hlen; omega
    have hnb : (st.prog_nbytes + 65535) % 65536 = st.prog_nbytes - 1 :=
      nb_dec _ hn1 hub
    by_cases hone : st.prog_nbytes = 1
    · -- the first byte completes the transfer; rest must be empty
      have hrest : rest = [] := by
        have hr0 : rest.length = 0 := by simp at hlen; omega
        exact List.eq_nil_of_length_eq_zero hr0
      subst hrest
      have hhit : (writeStep st b).2.2 = true := by
        rw [writeStep_hit, hnb, hone]; simp
      simp only [writeLoop, hhit, if_pos]
      refine ⟨?_, ?_, ?_, ?_, ?_, ?_⟩
      · rw [writeStep_nbytes, hnb]; simp
      · rw [writeStep_address]; simp
      · exact writeStep_pagesize st b
      · exact writeStep_blockflags st b
      · rw [writeStep_state, hnb, hone]; simp
      · simp [hone]
    · -- more bytes remain after this one
      have hnohit : (writeStep st b).2.2 = false := by
        rw [writeStep_hit, hnb]
        simp; omega
      have hst1 : (writeStep st b).1.prog_state = st.prog_state := by
        rw [writeStep_state, hnb]
        rw [if_neg]; omega
      have hlen1 : rest.length ≤ (writeStep st b).1.prog_nbytes := by
        rw [writeStep_nbytes, hnb]
        simp at hlen; omega
      have hub1 : (writeStep st b).1.prog_nbytes ≤ 65535 := by
        rw [writeStep_nbytes, hnb]; omega
      have ha1 : (writeStep st b).1.prog_address < 4294967296 := by
        rw [writeStep_address]; omega
      obtain ⟨c1, c2, c3, c4, c5, c6⟩ :=
        ih (writeStep st b).1 r
          (by rw [hst1]; exact hst) hlen1 hub1 ha1
      have hcond : (rest.length = (writeStep st b).1.prog_nbytes ∧ rest ≠ []) ↔
          ((b :: rest).length = st.prog_nbytes) := by
        rw [writeStep_nbytes, hnb]
        simp only [List.length_cons]
        constructor
        · rintro ⟨h1, h2⟩; omega
        · intro h1
          have hr : rest.length = st.prog_nbytes - 1 := by omega
          refine ⟨hr, ?_⟩
          rw [← List.length_pos]
          omega
      simp only [writeLoop, hnohit, Bool.false_eq_true, if_false]
      refine ⟨?_, ?_, ?_, ?_, ?_, ?_⟩
      · rw [c1, writeStep_nbytes, hnb]
        simp only [List.length_cons]
        omega
      · rw [c2, writeStep_address, List.length_cons, mod_add_mod_step]
      · rw [c3, writeStep_pagesize]
      · rw [c4, writeStep_blockflags]
      · rw [c5, hst1]
        by_cases hc : (b :: rest).length = st.prog_nbytes
        · rw [if_pos (hcond.2 hc), if_pos ⟨hc, by simp⟩]
        · rw [if_neg, if_neg]
          · intro hcc; exact hc hcc.1
          · intro hcc; exact hc (hcond.1 hcc)
      · rw [c6]
        by_cases hc : (b :: rest).length = st.prog_nbytes
        · rw [if_pos (hcond.2 hc), if_pos ⟨hc, by simp⟩]
        · rw [if_neg, if_neg]
          · intro hcc; exact hc hcc.1
          · intro hcc; exact hc (hcond.1 hcc)

theorem usbFunctionWrite_valid (st : Session) (data : List Nat)
    (h : st.prog_state = 1 ∨ st.prog_state = 4) :
    usbFunctionWrite st data = writeLoop st 0 data := by
  unfold usbFunctionWrite
  rw [if_neg]
  rcases h with h | h <;> simp [h]

theorem usbFunctionWrite_nil (st : Session) :
    (usbFunctionWrite st []).2 = (st, []) := by
  unfold usbFunctionWrite
  split <;> simp [writeLoop]

theorem writeChunks_nil_chunks (cs : List (List Nat)) : ∀ (st : Session),
    (∀ c ∈ cs, c = []) → writeChunks st cs = (st, []) := by
  induction cs with
  | nil => intro st h; simp [writeChunks]
  | cons c rest ih =>
    intro st h
    have hc : c = [] := h c (by simp)
    subst hc
    simp only [writeChunks, usbFunctionWrite_nil]
    rw [ih st (fun x hx => h x (by simp [hx]))]
    simp [usbFunctionWrite_nil]

theorem writeChunks_join (cs : List (List Nat)) : ∀ (st : Session),
    (st.prog_state = 1 ∨ st.prog_state = 4) →
    cs.join.length ≤ st.prog_nbytes → st.prog_nbytes ≤ 65535 →
    st.prog_address < 4294967296 →
    writeChunks st cs =
      ((writeLoop st 0 cs.join).2.1, (writeLoop st 0 cs.join).2.2) := by
  induction cs with
  | nil => intro st hst hlen hub ha; simp [writeChunks, writeLoop]
  | cons c rest ih =>
    intro st hst hlen hub ha
    have hjoin : (c :: rest).join = c ++ rest.join := by simp
    have hlen2 : c.length + rest.join.length ≤ st.prog_nbytes := by
      rw [hjoin] at hlen; simpa using hlen
    have hlenc : c.length ≤ st.prog_nbytes := by omega
    obtain ⟨c1, c2, c3, c4, c5, c6⟩ :=
      writeLoop_run c st 0 hst hlenc hub ha
    by_cases hc : c.length = st.prog_nbytes ∧ c ≠ []
    · -- this chunk ends the transfer; the rest must be empty chunks
      have hrj : rest.join.length = 0 := by omega
      have hrj2 : rest.join = [] := List.eq_nil_of_length_eq_zero hrj
      have hall : ∀ x ∈ rest, x = [] := by
        intro x hx
        have := List.eq_nil_of_length_eq_zero hrj
        rcases List.join_eq_nil_iff.mp hrj2 with h2
        exact h2 x hx
      simp only [writeChunks, usbFunctionWrite_valid st c hst]
      rw [writeChunks_nil_chunks rest _ hall]
      rw [hjoin, hrj2, List.append_nil]
      simp
    · -- the transfer continues after this chunk
      have hst1 : (writeLoop st 0 c).2.1.prog_state = st.prog_state := by
        rw [c5, if_neg hc]
      have hrec :=
        ih (writeLoop st 0 c).2.1 (by rw [hst1]; exact hst)
          (by rw [c1]; omega) (by rw [c1]; omega)
          (by rw [c2]; exact Nat.mod_lt _ (by norm_num))
      simp only [writeChunks, usbFunctionWrite_valid st c hst]
      rw [hrec]
      rw [hjoin, writeLoop_append]
      rw [writeLoop_retVal rest.join (writeLoop st 0 c).2.1 (writeLoop st 0 c).1]

theorem flushPairs_append (l1 l2 : List Event) :
    flushPairs (l1 ++ l2) = flushPairs l1 ++ flushPairs l2 := by
  simp [flushPairs]

theorem writeStep_events_paged_nohit (st : Session) (b : Nat)
    (h1 : st.prog_state = 1) (h2 : st.prog_pagesize ≠ 0)
    (h4 : (st.prog_nbytes + 65535) % 65536 ≠ 0) :
    (writeStep st b).2.1 =
      Event.writeFlash st.prog_address b 0 ::
        (if (st.prog_pagecounter + 255) % 256 = 0
         then [Event.flushPage st.prog_address b] else []) := by
  by_cases h3 : (st.prog_pagecounter + 255) % 256 = 0 <;>
    simp [writeStep, finishByte, h1, h2, h3, h4, apply_ite Prod.snd,
      apply_ite Prod.fst]

theorem writeStep_events_paged_hit (st : Session) (b : Nat)
    (h1 : st.prog_state = 1) (h2 : st.prog_pagesize ≠ 0)
    (h4 : (st.prog_nbytes + 65535) % 65536 = 0) :
    (writeStep st b).2.1 =
      Event.writeFlash st.prog_address b 0 ::
        ((if (st.prog_pagecounter + 255) % 256 = 0
          then [Event.flushPage st.prog_address b] else []) ++
         (if st.prog_blockflags &&& 2 ≠ 0 ∧
             (if (st.prog_pagecounter + 255) % 256 = 0
              then st.prog_pagesize % 256
              else (st.prog_pagecounter + 255) % 256) ≠ st.prog_pagesize
          then [Event.flushPage st.prog_address b] else [])) := by
  by_cases h3 : (st.prog_pagecounter + 255) % 256 = 0 <;>
    by_cases h5 : st.prog_blockflags &&& 2 ≠ 0 <;>
      by_cases h6 : st.prog_pagesize % 256 ≠ st.prog_pagesize <;>
        by_cases h7 : (st.prog_pagecounter + 255) % 256 ≠ st.prog_pagesize <;>
          simp_all [writeStep, finishByte, apply_ite Prod.snd,
            apply_ite Prod.fst]

theorem flushPairs_wf (a b : Nat) :
    flushPairs [Event.writeFlash a b 0] = [] := by
  simp [flushPairs]

theorem flushPairs_wf_flush (a b : Nat) :
    flushPairs [Event.writeFlash a b 0, Event.flushPage a b] = [(a, b)] := by
  simp [flushPairs]

theorem flushPattern_succ (pc ps n : Nat) :
    flushPattern pc ps (n + 1) =
      (if (pc + 255) % 256 = 0 then [0] else []) ++
      (flushPattern (if (pc + 255) % 256 = 0 then ps % 256
                     else (pc + 255) % 256) ps n).map (· + 1) := by
  by_cases h : (pc + 255) % 256 = 0 <;> simp [flushPattern, h]

theorem pcFinal_succ (pc ps n : Nat) :
    pcFinal pc ps (n + 1) =
      pcFinal (if (pc + 255) % 256 = 0 then ps % 256
               else (pc + 255) % 256) ps n := by
  simp [pcFinal]

theorem flushPattern_one (pc ps : Nat) :
    flushPattern pc ps 1 = if (pc + 255) % 256 = 0 then [0] else [] := by
  have h1 : (1 : Nat) = 0 + 1 := rfl
  rw [h1, flushPattern_succ]
  simp [flushPattern]

theorem pcFinal_one (pc ps : Nat) :
    pcFinal pc ps 1 =
      if (pc + 255) % 256 = 0 then ps % 256 else (pc + 255) % 256 := by
  have h1 : (1 : Nat) = 0 + 1 := rfl
  rw [h1, pcFinal_succ]
  by_cases h : (pc + 255) % 256 = 0 <;> simp [pcFinal, h]

theorem writeLoop_flush_trace (data : List Nat) : ∀ (st : Session) (r : Nat),
    st.prog_state = 1 → st.prog_pagesize ≠ 0 → st.prog_pagecounter < 256 →
    data.length = st.prog_nbytes → st.prog_nbytes ≤ 65535 →
    st.prog_address + data.length ≤ 4294967296 →
    flushPairs (writeLoop st r data).2.2 =
      (flushPattern st.prog_pagecounter st.prog_pagesize data.length).map
        (fun k => (st.prog_address + k, data.getD k 0)) ++
      (if st.prog_blockflags &&& 2 ≠ 0 ∧
          pcFinal st.prog_pagecounter st.prog_pagesize data.length ≠
            st.prog_pagesize ∧ data ≠ []
       then [(st.prog_address + (data.length - 1),
              data.getD (data.length - 1) 0)]
       else []) := by
  induction data with
  | nil =>
    intro st r h1 h2 h3 hlen hub ha
    simp [writeLoop, flushPairs, flushPattern]
  | cons b rest ih =>
    intro st r h1 h2 h3 hlen hub ha
    have hn : st.prog_nbytes = rest.length + 1 := by
      simp at hlen; omega
    by_cases hrest : rest = []
    · -- single remaining byte: the transfer completes here
      subst hrest
      have hn1 : st.prog_nbytes = 1 := by simpa using hn
      have hnb : (st.prog_nbytes + 65535) % 65536 = 0 := by omega
      simp only [writeLoop, List.append_nil]
      rw [writeStep_events_paged_hit st b h1 h2 hnb]
      simp only [List.length_cons, List.length_nil, Nat.zero_add,
        flushPattern_one, pcFinal_one]
      by_cases h4 : (st.prog_pagecounter + 255) % 256 = 0 <;>
        by_cases h5 : st.prog_blockflags &&& 2 ≠ 0 <;>
          simp [flushPairs, h4, h5, flushPairs_append] <;>
            split <;> simp [flushPairs]
    · -- more bytes follow: the state stays in WRITEFLASH
      have hrl : 1 ≤ rest.length := by
        rcases rest with _ | _
        · exact absurd rfl hrest
        · simp
      have hnb : (st.prog_nbytes + 65535) % 65536 = rest.length := by omega
      have hnohit : (writeStep st b).2.2 = false := by
        rw [writeStep_hit, hnb]
        simp only [decide_eq_false_iff_not]
        omega
      have hst1 : (writeStep st b).1.prog_state = 1 := by
        rw [writeStep_state, hnb, if_neg (by omega)]; exact h1
      have hps1 : (writeStep st b).1.prog_pagesize = st.prog_pagesize :=
        writeStep_pagesize st b
      have hbf1 : (writeStep st b).1.prog_blockflags = st.prog_blockflags :=
        writeStep_blockflags st b
      have hpc1 : (writeStep st b).1.prog_pagecounter =
          (if (st.prog_pagecounter + 255) % 256 = 0 then st.prog_pagesize % 256
           else (st.prog_pagecounter + 255) % 256) := by
        rw [writeStep_pagecounter, if_pos ⟨h1, h2⟩]
      have hpc1lt : (writeStep st b).1.prog_pagecounter < 256 := by
        rw [hpc1]; split <;> omega
      have hnb1 : (writeStep st b).1.prog_nbytes = rest.length := by
        rw [writeStep_nbytes, hnb]
      have haddr1 : (writeStep st b).1.prog_address = st.prog_address + 1 := by
        rw [writeStep_address]
        apply Nat.mod_eq_of_lt
        simp at ha
        omega
      have ha1 : (writeStep st b).1.prog_address + rest.length ≤ 4294967296 := by
        rw [haddr1]
        simp at ha
        omega
      have hrec := ih (writeStep st b).1
        (if (writeStep st b).2.2 then 1 else r) hst1
        (by rw [hps1]; exact h2) hpc1lt (by rw [hnb1]) (by rw [hnb1]; omega) ha1
      simp only [writeLoop]
      rw [flushPairs_append, hrec]
      rw [writeStep_events_paged_nohit st b h1 h2 (by rw [hnb]; omega)]
      rw [hps1, hbf1, hpc1, haddr1]
      simp only [List.length_cons]
      rw [flushPattern_succ, pcFinal_succ]
      rw [List.map_append, List.map_map]
      have hmapeq :
          ((fun k => (st.prog_address + k, (b :: rest).getD k 0)) ∘ (· + 1)) =
            (fun k => (st.prog_address + 1 + k, rest.getD k 0)) := by
        funext k
        simp only [Function.comp_apply, List.getD_cons_succ, Prod.mk.injEq]
        exact ⟨by omega, by trivial⟩
      rw [hmapeq]
      rw [← List.append_assoc]
      have e1 : flushPairs
          (Event.writeFlash st.prog_address b 0 ::
            (if (st.prog_pagecounter + 255) % 256 = 0
             then [Event.flushPage st.prog_address b] else [])) =
          List.map (fun k => (st.prog_address + k, (b :: rest).getD k 0))
            (if (st.prog_pagecounter + 255) % 256 = 0 then [0] else []) := by
        by_cases h4 : (st.prog_pagecounter + 255) % 256 = 0 <;>
          simp [flushPairs, h4]
      rw [e1]
      have hidx : rest.length + 1 - 1 = (rest.length - 1) + 1 := by omega
      have hget : (b :: rest).getD (rest.length + 1 - 1) 0 =
          rest.getD (rest.length - 1) 0 := by
        rw [hidx, List.getD_cons_succ]
      have haddr2 : st.prog_address + (rest.length + 1 - 1) =
          st.prog_address + 1 + (rest.length - 1) := by omega
      rw [hget, haddr2]
      simp [hrest]

/-! Facts about the reader. -/

theorem readLoop_session (k : Nat) : ∀ (st : Session),
    st.prog_address < 4294967296 →
    (readLoop st k).1 =
      { st with prog_address := (st.prog_address + k) % 4294967296 } := by
  induction k with
  | zero =>
    intro st ha
    simp [readLoop, Nat.mod_eq_of_lt ha]
  | succ n ih =>
    intro st ha
    simp only [readLoop]
    rw [ih _ (Nat.mod_lt _ (by norm_num))]
    simp only [Nat.mod_add_mod]
    have h : st.prog_address + 1 + n = st.prog_address + (n + 1) := by omega
    rw [h]

theorem readLoop_nbytes_irrel (k : Nat) : ∀ (st : Session) (m : Nat),
    readLoop { st with prog_nbytes := m } k =
      ({ (readLoop st k).1 with prog_nbytes := m }, (readLoop st k).2) := by
  induction k with
  | zero => intro st m; simp [readLoop]
  | succ n ih =>
    intro st m
    simp only [readLoop]
    rw [show ({ st with
        prog_nbytes := m,
        prog_address := (st.prog_address + 1) % 4294967296 } : Session) =
      { ({ st with prog_address := (st.prog_address + 1) % 4294967296 } :
          Session) with prog_nbytes := m } from rfl]
    rw [ih]

theorem usbFunctionRead_invalid (st : Session) (len : Nat)
    (h2 : st.prog_state ≠ 2) (h3 : st.prog_state ≠ 3) :
    usbFunctionRead st len = (255, st, []) := by
  unfold usbFunctionRead
  rw [if_pos ⟨h2, h3⟩]

theorem usbFunctionWrite_invalid (st : Session) (data : List Nat)
    (h1 : st.prog_state ≠ 1) (h4 : st.prog_state ≠ 4) :
    usbFunctionWrite st data = (255, st, []) := by
  unfold usbFunctionWrite
  rw [if_pos ⟨h1, h4⟩]

theorem usbFunctionRead_valid (st : Session) (len : Nat)
    (h : st.prog_state = 2 ∨ st.prog_state = 3) :
    usbFunctionRead st len =
      (len,
       (if len < 8 then { (readLoop st len).1 with prog_state := 0 }
        else (readLoop st len).1),
       (readLoop st len).2) := by
  unfold usbFunctionRead
  rw [if_neg]
  rcases h with h | h <;> simp [h]

/-! The writer loop once the state has fallen back to IDLE mid-call
(overrun past the declared transfer). -/

theorem writeStep_eeprom_nohit (st : Session) (b : Nat)
    (h1 : st.prog_state ≠ 1)
    (h2 : (st.prog_nbytes + 65535) % 65536 ≠ 0) :
    writeStep st b =
      ({ st with
          prog_nbytes := (st.prog_nbytes + 65535) % 65536,
          prog_address := (st.prog_address + 1) % 4294967296 },
       [Event.writeEEPROM st.prog_address b], false) := by
  simp [writeStep, finishByte, h1, h2]

theorem writeLoop_idle (ds : List Nat) : ∀ (st : Session) (r j : Nat),
    st.prog_state = 0 → st.prog_nbytes = (65536 - j) % 65536 →
    j + ds.length ≤ 65535 → st.prog_address < 4294967296 →
    writeLoop st r ds =
      (r,
       { st with
         prog_nbytes := (65536 - (j + ds.length)) % 65536,
         prog_address := (st.prog_address + ds.length) % 4294967296 },
       eepromWrites st.prog_address ds) := by
  induction ds with
  | nil =>
    intro st r j h0 hnb hj ha
    simp [writeLoop, eepromWrites, Nat.mod_eq_of_lt ha, ← hnb]
  | cons b ds ih =>
    intro st r j h0 hnb hj ha
    have hj1 : j ≤ 65534 := by
      simp at hj; omega
    have hnb2 : (st.prog_nbytes + 65535) % 65536 =
        (65536 - (j + 1)) % 65536 := by
      omega
    have hne : (st.prog_nbytes + 65535) % 65536 ≠ 0 := by
      rw [hnb2]; omega
    simp only [writeLoop]
    rw [writeStep_eeprom_nohit st b (by rw [h0]; omega) hne]
    simp only [Bool.false_eq_true, if_false]
    rw [ih { st with
          prog_nbytes := (st.prog_nbytes + 65535) % 65536,
          prog_address := (st.prog_address + 1) % 4294967296 } r (j + 1)
        h0 hnb2 (by simp at hj ⊢; omega) (Nat.mod_lt _ (by norm_num))]
    simp only [eepromWrites, Nat.mod_add_mod, Prod.mk.injEq,
      List.singleton_append, List.length_cons]
    refine ⟨True.intro, ?_, True.intro⟩
    have h1 : 65536 - (j + 1 + ds.length) = 65536 - (j + (ds.length + 1)) := by
      omega
    have h2 : st.prog_address + 1 + ds.length =
        st.prog_address + (ds.length + 1) := by omega
    rw [h1, h2]

/-! Flush resets the countdown: needed for the pageCounter invariant. -/

theorem writeStep_flush_pc (st : Session) (b : Nat)
    (hbf : st.prog_blockflags &&& 2 = 0)
    (hf : hasFlush (writeStep st b).2.1 = true) :
    (writeStep st b).1.prog_pagecounter = st.prog_pagesize % 256 := by
  by_cases h1 : st.prog_state = 1 <;>
    by_cases h2 : st.prog_pagesize = 0 <;>
      by_cases h3 : (st.prog_pagecounter + 255) % 256 = 0 <;>
        by_cases h4 : (st.prog_nbytes + 65535) % 65536 = 0 <;>
          simp_all [writeStep, finishByte, hasFlush, hbf,
            apply_ite Prod.fst, apply_ite Prod.snd,
            apply_ite Session.prog_pagecounter]

theorem runStates_flush_pc (data : List Nat) : ∀ (st : Session),
    st.prog_blockflags &&& 2 = 0 →
    ∀ p ∈ runStates st data, hasFlush p.2 = true →
      p.1.prog_pagecounter = st.prog_pagesize % 256 := by
  induction data with
  | nil => intro st hbf p hp; simp [runStates] at hp
  | cons b rest ih =>
    intro st hbf p hp hf
    simp only [runStates, List.mem_cons] at hp
    rcases hp with hp | hp
    · subst hp
      exact writeStep_flush_pc st b hbf hf
    · have hbf1 : (writeStep st b).1.prog_blockflags &&& 2 = 0 := by
        rw [writeStep_blockflags]; exact hbf
      have := ih (writeStep st b).1 hbf1 p hp hf
      rw [this, writeStep_pagesize]

/-! The 16-bit legacy address field. -/

theorem legacy_addr_eq (d2 d3 : Nat) (h2 : d2 < 256) :
    (d3 <<< 8) ||| d2 = d3 * 256 + d2 := by
  rw [Nat.shiftLeft_eq]
  have hp : (2 : Nat) ^ 8 = 256 := by norm_num
  calc d3 * 2 ^ 8 ||| d2 = 2 ^ 8 * d3 ||| d2 := by rw [Nat.mul_comm]
    _ = 2 ^ 8 * d3 + d2 :=
        (Nat.mul_add_lt_is_or (by rw [hp]; exact h2) d3).symm
    _ = d3 * 256 + d2 := by rw [hp, Nat.mul_comm]

theorem legacy_addr_lt (d2 d3 : Nat) (h2 : d2 < 256) (h3 : d3 < 256) :
    (d3 <<< 8) ||| d2 < 65536 := by
  rw [legacy_addr_eq d2 d3 h2]
  omega

/-! Closed form of the reference flush pattern: flushes occur at the byte
indices k with D <= k+1 and (k+1-D) mod T = 0, where D is the distance to
the next flush given the current 8-bit countdown (256 when the counter
is 0) and T the flush period given the page size (256 when the page size
is a multiple of 256). -/

theorem map_succ_eq_map_add_one (l : List Nat) :
    List.map Nat.succ l = List.map (· + 1) l :=
  List.map_congr_left (fun _ _ => rfl)

theorem period_mod_iff (T x : Nat) (hT : 0 < T) :
    (T ≤ x + 1 ∧ (x + 1 - T) % T = 0) ↔ (x + 1) % T = 0 := by
  constructor
  · rintro ⟨h1, h2⟩
    have hx : x + 1 = (x + 1 - T) + T := by omega
    rw [hx, Nat.add_mod_right]
    exact h2
  · intro h
    have hd : T ∣ x + 1 := Nat.dvd_of_mod_eq_zero h
    have hle : T ≤ x + 1 := Nat.le_of_dvd (by omega) hd
    exact ⟨hle, Nat.mod_eq_zero_of_dvd (Nat.dvd_sub' hd dvd_rfl)⟩

theorem flushPattern_filter (n : Nat) : ∀ (pc ps : Nat), pc < 256 →
    flushPattern pc ps n =
      (List.range n).filter (fun k =>
        decide ((if pc = 0 then 256 else pc) ≤ k + 1 ∧
          (k + 1 - (if pc = 0 then 256 else pc)) %
            (if ps % 256 = 0 then 256 else ps % 256) = 0)) := by
  induction n with
  | zero => intro pc ps h; simp [flushPattern]
  | succ n ih =>
    intro pc ps h
    rw [flushPattern_succ, List.range_succ_eq_map, List.filter_cons,
      List.filter_map]
    by_cases h0 : pc = 0
    · subst h0
      norm_num
      rw [ih 255 ps (by norm_num), map_succ_eq_map_add_one]
      apply congrArg
      apply List.filter_congr
      intro k hk
      rw [Bool.eq_iff_iff]
      simp only [Function.comp_apply, Bool.and_eq_true, decide_eq_true_eq,
        Nat.succ_eq_add_one]
      norm_num
      constructor
      · rintro ⟨h1, h2⟩
        refine ⟨by omega, ?_⟩
        have he : k + 1 + 1 - 256 = k + 1 - 255 := by omega
        rw [he]
        exact h2
      · rintro ⟨h1, h2⟩
        refine ⟨by omega, ?_⟩
        have he : k + 1 - 255 = k + 1 + 1 - 256 := by omega
        rw [he]
        exact h2
    · by_cases h1 : pc = 1
      · subst h1
        norm_num
        rw [ih (ps % 256) ps (Nat.mod_lt _ (by norm_num)),
          map_succ_eq_map_add_one]
        apply congrArg
        apply List.filter_congr
        intro k hk
        rw [Bool.eq_iff_iff]
        simp only [Function.comp_apply, Bool.and_eq_true, decide_eq_true_eq,
          Nat.succ_eq_add_one]
        have hT : 0 < (if ps % 256 = 0 then 256 else ps % 256) := by
          split <;> omega
        rw [period_mod_iff _ k hT]
      · have hge : 2 ≤ pc := by omega
        have hpc2 : (pc + 255) % 256 = pc - 1 := by omega
        rw [hpc2]
        rw [if_neg (by omega : ¬pc - 1 = 0), if_neg (by omega : ¬pc - 1 = 0)]
        rw [ih (pc - 1) ps (by omega), map_succ_eq_map_add_one]
        rw [if_neg (show ¬(decide ((if pc = 0 then 256 else pc) ≤ 0 + 1 ∧
          (0 + 1 - (if pc = 0 then 256 else pc)) %
            (if ps % 256 = 0 then 256 else ps % 256) = 0)) = true by
          simp only [if_neg h0, decide_eq_true_eq]
          omega)]
        rw [List.nil_append]
        apply congrArg
        apply List.filter_congr
        intro k hk
        rw [Bool.eq_iff_iff]
        simp only [Function.comp_apply, decide_eq_true_eq,
          Nat.succ_eq_add_one, if_neg h0,
          if_neg (by omega : ¬pc - 1 = 0)]
        constructor
        · rintro ⟨ha2, hb2⟩
          refine ⟨by omega, ?_⟩
          have he : k + 1 + 1 - pc = k + 1 - (pc - 1) := by omega
          rw [he]
          exact hb2
        · rintro ⟨ha2, hb2⟩
          refine ⟨by omega, ?_⟩
          have he : k + 1 - (pc - 1) = k + 1 + 1 - pc := by omega
          rw [he]
          exact hb2

theorem usbFunctionSetup_vendor (st : Session)
    (d0 d1 d2 d3 d4 d5 d6 d7 : Nat) (h : d0 &&& 96 ≠ 32) :
    usbFunctionSetup st d0 d1 d2 d3 d4 d5 d6 d7 =
      setupVendorRequest st d1 d2 d3 d4 d5 d6 d7 := by
  unfold usbFunctionSetup
  rw [if_neg h]

theorem setup_writeflash_c1 (st : Session) (d2 d3 : Nat)
    (hm : st.prog_address_newmode = 0) :
    (usbFunctionSetup st 64 6 d2 d3 64 1 0 1).2 =
      { st with
        prog_address := ((d3 <<< 8) ||| d2) % 4294967296,
        prog_nbytes := 256,
        prog_pagesize := 64,
        prog_blockflags := 1,
        prog_pagecounter := 64,
        prog_state := 1 } := by
  rw [usbFunctionSetup_vendor st 64 6 d2 d3 64 1 0 1 (by decide)]
  simp [setupVendorRequest, hm]

/-- Claim C1: arming a program-memory write with pageSize 64,
remainingBytes 256 and the IsFirstBlock flag, then pushing the 256 bytes
through usbFunctionWrite in any partition into chunks, invokes the
page-flush primitive exactly 4 times, at byte offsets 63, 127, 191 and
255 from the transfer start address, and the page countdown equals the
page size immediately after every flush. -/
theorem C1_paged_write_flushes (st : Session) (d2 d3 : Nat)
    (cs : List (List Nat))
    (hm : st.prog_address_newmode = 0) (h2 : d2 < 256) (h3 : d3 < 256)
    (hcs : cs.join.length = 256) :
    flushAddrs (writeChunks (usbFunctionSetup st 64 6 d2 d3 64 1 0 1).2 cs).2 =
      [(usbFunctionSetup st 64 6 d2 d3 64 1 0 1).2.prog_address + 63,
       (usbFunctionSetup st 64 6 d2 d3 64 1 0 1).2.prog_address + 127,
       (usbFunctionSetup st 64 6 d2 d3 64 1 0 1).2.prog_address + 191,
       (usbFunctionSetup st 64 6 d2 d3 64 1 0 1).2.prog_address + 255] ∧
    (usbFunctionSetup st 64 6 d2 d3 64 1 0 1).2.prog_pagesize = 64 ∧
    (∀ p ∈ runStates (usbFunctionSetup st 64 6 d2 d3 64 1 0 1).2 cs.join,
      hasFlush p.2 = true →
        p.1.prog_pagecounter =
          (usbFunctionSetup st 64 6 d2 d3 64 1 0 1).2.prog_pagesize) := by
  rw [setup_writeflash_c1 st d2 d3 hm]
  have haddr : ((d3 <<< 8) ||| d2) % 4294967296 = (d3 <<< 8) ||| d2 :=
    Nat.mod_eq_of_lt (lt_trans (legacy_addr_lt d2 d3 h2 h3) (by norm_num))
  have halt : ((d3 <<< 8) ||| d2) % 4294967296 < 65536 := by
    rw [haddr]; exact legacy_addr_lt d2 d3 h2 h3
  refine ⟨?_, rfl, ?_⟩
  · rw [writeChunks_join cs _ (by left; rfl) (by simp [hcs]) (by simp)
      (by simp; omega)]
    unfold flushAddrs
    rw [writeLoop_flush_trace cs.join _ 0 rfl (by norm_num) (by norm_num)
      (by simp [hcs]) (by norm_num) (by simp [hcs]; omega)]
    have hbf : ¬((1 : Nat) &&& 2 ≠ 0 ∧
        pcFinal 64 64 cs.join.length ≠ 64 ∧ cs.join ≠ []) := by
      intro hc
      exact absurd rfl hc.1
    rw [if_neg hbf, List.append_nil]
    rw [hcs]
    rw [show flushPattern 64 64 256 = [63, 127, 191, 255] from by decide]
    simp
  · intro p hp hf
    have := runStates_flush_pc cs.join _ (by norm_num) p hp hf
    simpa using this

theorem setup_writeflash_c2 (st : Session) (d2 d3 : Nat)
    (hm : st.prog_address_newmode = 0) :
    (usbFunctionSetup st 64 6 d2 d3 64 3 200 0).2 =
      { st with
        prog_address := ((d3 <<< 8) ||| d2) % 4294967296,
        prog_nbytes := 200,
        prog_pagesize := 64,
        prog_blockflags := 3,
        prog_pagecounter := 64,
        prog_state := 1 } := by
  rw [usbFunctionSetup_vendor st 64 6 d2 d3 64 3 200 0 (by decide)]
  simp [setupVendorRequest, hm]
  decide

/-- Claim C2: arming a program-memory write with pageSize 64,
remainingBytes 200 and both IsFirstBlock and IsLastBlock, then pushing
the 200 bytes through usbFunctionWrite in any partition, gives the 3
natural flushes at offsets 63, 127 and 191 plus exactly one forced flush
at the final byte, offset 199, carrying the just-written byte; and, in
general, on a byte with no natural flush due, a flush occurs exactly
when remainingBytes reaches 0, the IsLastBlock flag is set and the page
countdown differs from the page size, and it passes the current address
and the just-written byte. -/
theorem C2_forced_final_flush (st : Session) (d2 d3 : Nat)
    (cs : List (List Nat))
    (hm : st.prog_address_newmode = 0) (h2 : d2 < 256) (h3 : d3 < 256)
    (hcs : cs.join.length = 200) :
    flushPairs (writeChunks (usbFunctionSetup st 64 6 d2 d3 64 3 200 0).2 cs).2 =
      [((usbFunctionSetup st 64 6 d2 d3 64 3 200 0).2.prog_address + 63,
        cs.join.getD 63 0),
       ((usbFunctionSetup st 64 6 d2 d3 64 3 200 0).2.prog_address + 127,
        cs.join.getD 127 0),
       ((usbFunctionSetup st 64 6 d2 d3 64 3 200 0).2.prog_address + 191,
        cs.join.getD 191 0),
       ((usbFunctionSetup st 64 6 d2 d3 64 3 200 0).2.prog_address + 199,
        cs.join.getD 199 0)] ∧
    (∀ (s : Session) (b : Nat), s.prog_state = 1 → s.prog_pagesize ≠ 0 →
      (s.prog_pagecounter + 255) % 256 ≠ 0 →
      flushPairs (writeStep s b).2.1 =
        (if (s.prog_nbytes + 65535) % 65536 = 0 ∧
            s.prog_blockflags &&& 2 ≠ 0 ∧
            (s.prog_pagecounter + 255) % 256 ≠ s.prog_pagesize
         then [(s.prog_address, b)] else [])) := by
  constructor
  · rw [setup_writeflash_c2 st d2 d3 hm]
    have halt : ((d3 <<< 8) ||| d2) % 4294967296 < 65536 := by
      rw [Nat.mod_eq_of_lt
        (lt_trans (legacy_addr_lt d2 d3 h2 h3) (by norm_num))]
      exact legacy_addr_lt d2 d3 h2 h3
    rw [writeChunks_join cs _ (by left; rfl) (by simp [hcs]) (by simp)
      (by simp; omega)]
    rw [writeLoop_flush_trace cs.join _ 0 rfl (by norm_num) (by norm_num)
      (by simp [hcs]) (by norm_num) (by simp [hcs]; omega)]
    have hbf : ((3 : Nat) &&& 2 ≠ 0 ∧
        pcFinal 64 64 cs.join.length ≠ 64 ∧ cs.join ≠ []) := by
      refine ⟨by decide, ?_, ?_⟩
      · rw [hcs]
        decide
      · intro hnil
        rw [hnil] at hcs
        simp at hcs
    rw [if_pos hbf]
    rw [hcs]
    rw [show flushPattern 64 64 200 = [63, 127, 191] from by decide]
    simp
  · intro s b hs1 hs2 hs3
    by_cases h4 : (s.prog_nbytes + 65535) % 65536 = 0
    · rw [writeStep_events_paged_hit s b hs1 hs2 h4]
      rw [if_neg hs3]
      by_cases h5 : s.prog_blockflags &&& 2 ≠ 0 ∧
          (s.prog_pagecounter + 255) % 256 ≠ s.prog_pagesize
      · rw [if_pos (by rw [if_neg hs3]; exact h5)]
        rw [if_pos ⟨h4, h5⟩]
        simp [flushPairs]
      · rw [if_neg (by rw [if_neg hs3]; exact h5)]
        rw [if_neg (fun hc => h5 ⟨hc.2.1, hc.2.2⟩)]
        simp [flushPairs]
    · rw [writeStep_events_paged_nohit s b hs1 hs2 h4]
      rw [if_neg hs3]
      rw [if_neg (fun hc => h4 hc.1)]
      simp [flushPairs]

theorem readLoop_nbytes_val (k : Nat) : ∀ (st : Session),
    (readLoop st k).1.prog_nbytes = st.prog_nbytes := by
  induction k with
  | zero => intro st; simp [readLoop]
  | succ n ih => intro st; simp only [readLoop]; rw [ih]

/-- Claim C3, counterexample: a reader call serving 8 bytes from a
session with remainingBytes 10 leaves remainingBytes at 10 instead of
decrementing it per byte. -/
theorem C3_counterexample :
    ¬ ((usbFunctionRead
          { session0 with prog_state := 2, prog_nbytes := 10 } 8).2.1.prog_nbytes =
        10 - 8) := by
  decide

/-- Claim C3, amended: the Writer decrements remainingBytes once per
accepted byte and the write transfer ends, with the state falling back
to Idle, exactly when remainingBytes reaches 0; the Reader never touches
remainingBytes (read termination is driven by chunk shortness alone). -/
theorem C3_remaining_bytes :
    (∀ (st : Session) (data : List Nat),
      (st.prog_state = 1 ∨ st.prog_state = 4) →
      data.length ≤ st.prog_nbytes → st.prog_nbytes ≤ 65535 →
      st.prog_address < 4294967296 →
      (usbFunctionWrite st data).2.1.prog_nbytes =
        st.prog_nbytes - data.length ∧
      ((usbFunctionWrite st data).2.1.prog_state = 0 ↔
        (data ≠ [] ∧ data.length = st.prog_nbytes))) ∧
    (∀ (st : Session) (len : Nat),
      (usbFunctionRead st len).2.1.prog_nbytes = st.prog_nbytes) := by
  constructor
  · intro st data hst hlen hub ha
    rw [usbFunctionWrite_valid st data hst]
    obtain ⟨c1, _, _, _, c5, _⟩ := writeLoop_run data st 0 hst hlen hub ha
    refine ⟨c1, ?_⟩
    rw [c5]
    constructor
    · intro hz
      by_cases hc : data.length = st.prog_nbytes ∧ data ≠ []
      · exact ⟨hc.2, hc.1⟩
      · rw [if_neg hc] at hz
        rcases hst with h | h <;> omega
    · rintro ⟨hne, hl⟩
      rw [if_pos ⟨hl, hne⟩]
  · intro st len
    unfold usbFunctionRead
    split
    · rfl
    · simp only []
      split <;> simp [readLoop_nbytes_val]

/-- Claim C6: a reader or writer chunk call in a non-matching state, in
particular Idle, returns the sentinel 0xff, makes no primitive call and
leaves every session field unchanged. -/
theorem C6_state_guard (st : Session) (len : Nat) (data : List Nat) :
    ((st.prog_state ≠ 2 ∧ st.prog_state ≠ 3) →
      usbFunctionRead st len = (255, st, [])) ∧
    ((st.prog_state ≠ 1 ∧ st.prog_state ≠ 4) →
      usbFunctionWrite st data = (255, st, [])) :=
  ⟨fun h => usbFunctionRead_invalid st len h.1 h.2,
   fun h => usbFunctionWrite_invalid st data h.1 h.2⟩

/-- Claim C7: a reader chunk call in a valid read state with a requested
length below the chunk capacity 8 returns that length, sets the state to
Idle even though remainingBytes may be nonzero, and its whole result is
independent of remainingBytes. -/
theorem C7_short_chunk_idle (st : Session) (len : Nat)
    (hst : st.prog_state = 2 ∨ st.prog_state = 3) (hlen : len < 8) :
    (usbFunctionRead st len).1 = len ∧
    (usbFunctionRead st len).2.1.prog_state = 0 ∧
    (∀ m : Nat, usbFunctionRead { st with prog_nbytes := m } len =
      ((usbFunctionRead st len).1,
       { (usbFunctionRead st len).2.1 with prog_nbytes := m },
       (usbFunctionRead st len).2.2)) := by
  have hval := usbFunctionRead_valid st len hst
  refine ⟨by rw [hval], by rw [hval]; simp [hlen], ?_⟩
  intro m
  have hst2 : ({ st with prog_nbytes := m } : Session).prog_state = 2 ∨
      ({ st with prog_nbytes := m } : Session).prog_state = 3 := hst
  rw [usbFunctionRead_valid _ len hst2, hval]
  rw [readLoop_nbytes_irrel len st m]
  simp [hlen]

/-- Claim C8: a WriteProgramMemory command decodes the page size as byte4
plus the masked high nibble of byte5 shifted left by 4, a 12-bit value of
at most 4095, and the block flags as the low nibble of byte5, whose bits
0 and 1 are the IsFirstBlock and IsLastBlock bits of byte5. -/
theorem C8_packed_decode (st : Session) (d0 d2 d3 d4 d5 d6 d7 : Nat)
    (hd0 : d0 &&& 96 ≠ 32) (h4 : d4 < 256) (h5 : d5 < 256) :
    (usbFunctionSetup st d0 6 d2 d3 d4 d5 d6 d7).2.prog_pagesize =
      d4 + ((d5 &&& 240) <<< 4) ∧
    (usbFunctionSetup st d0 6 d2 d3 d4 d5 d6 d7).2.prog_pagesize ≤ 4095 ∧
    (usbFunctionSetup st d0 6 d2 d3 d4 d5 d6 d7).2.prog_blockflags =
      d5 &&& 15 ∧
    (usbFunctionSetup st d0 6 d2 d3 d4 d5 d6 d7).2.prog_blockflags &&& 1 =
      d5 &&& 1 ∧
    (usbFunctionSetup st d0 6 d2 d3 d4 d5 d6 d7).2.prog_blockflags &&& 2 =
      d5 &&& 2 := by
  rw [usbFunctionSetup_vendor st d0 6 d2 d3 d4 d5 d6 d7 hd0]
  have hmask : d5 &&& 240 ≤ 240 := Nat.and_le_right
  have hsh : (d5 &&& 240) <<< 4 = (d5 &&& 240) * 16 := by
    rw [Nat.shiftLeft_eq]
  have hlt : d4 + ((d5 &&& 240) <<< 4) < 65536 := by
    rw [hsh]; omega
  have hps : (d4 + ((d5 &&& 240) <<< 4)) % 65536 =
      d4 + ((d5 &&& 240) <<< 4) := Nat.mod_eq_of_lt hlt
  have hps2 : (setupVendorRequest st 6 d2 d3 d4 d5 d6 d7).2.prog_pagesize =
      d4 + ((d5 &&& 240) <<< 4) := by
    simp [setupVendorRequest, hps]
  have hb : (setupVendorRequest st 6 d2 d3 d4 d5 d6 d7).2.prog_blockflags =
      d5 &&& 15 := by
    simp [setupVendorRequest]
  refine ⟨hps2, ?_, hb, ?_, ?_⟩
  · rw [hps2, hsh]
    omega
  · rw [hb, Nat.and_assoc, show (15 : Nat) &&& 1 = 1 from by decide]
  · rw [hb, Nat.and_assoc, show (15 : Nat) &&& 2 = 2 from by decide]

/-- Claim C9: if a chunk is longer than the declared remaining bytes of a
flash write, the loop keeps going after remainingBytes hits 0: the state
falls to Idle mid-loop, every following byte of the chunk is routed to
the EEPROM write primitive, remainingBytes wraps around modulo 65536,
and the call still returns the transfer-complete flag 1. -/
theorem C9_overrun_eeprom_route (st : Session) (data : List Nat) (n m : Nat)
    (hst : st.prog_state = 1) (hn : st.prog_nbytes = n) (hn1 : 0 < n)
    (hlen : data.length = n + m) (hm1 : 0 < m) (hm2 : m ≤ 65535)
    (hub : n ≤ 65535) (ha : st.prog_address < 4294967296) :
    (usbFunctionWrite st data).1 = 1 ∧
    (usbFunctionWrite st data).2.1.prog_state = 0 ∧
    (usbFunctionWrite st data).2.1.prog_nbytes = 65536 - m ∧
    (usbFunctionWrite st data).2.2 =
      (writeLoop st 0 (data.take n)).2.2 ++
        eepromWrites ((st.prog_address + n) % 4294967296) (data.drop n) := by
  rw [usbFunctionWrite_valid st data (Or.inl hst)]
  have hsplit : data = data.take n ++ data.drop n := (List.take_append_drop n data).symm
  have htake : (data.take n).length = n := by
    rw [List.length_take]
    omega
  have hdrop : (data.drop n).length = m := by
    rw [List.length_drop]
    omega
  obtain ⟨c1, c2, _, _, c5, c6⟩ :=
    writeLoop_run (data.take n) st 0 (Or.inl hst)
      (by rw [htake, hn]) (by rw [hn]; exact hub) ha
  have hcond : (data.take n).length = st.prog_nbytes ∧ data.take n ≠ [] := by
    refine ⟨by rw [htake, hn], ?_⟩
    intro hnil
    rw [hnil] at htake
    simp at htake
    omega
  have hidle := writeLoop_idle (data.drop n) (writeLoop st 0 (data.take n)).2.1
    (writeLoop st 0 (data.take n)).1 0
    (by rw [c5, if_pos hcond])
    (by rw [c1, htake, hn]; simp)
    (by rw [hdrop]; omega)
    (by rw [c2]; exact Nat.mod_lt _ (by norm_num))
  have hda : writeLoop st 0 data =
      writeLoop st 0 (data.take n ++ data.drop n) := by
    rw [List.take_append_drop]
  rw [hda, writeLoop_append, hidle]
  rw [c6, if_pos hcond]
  refine ⟨rfl, ?_, ?_, ?_⟩
  · show (writeLoop st 0 (data.take n)).2.1.prog_state = 0
    rw [c5, if_pos hcond]
  · show (65536 - (0 + (data.drop n).length)) % 65536 = 65536 - m
    rw [hdrop]
    omega
  · show (writeLoop st 0 (data.take n)).2.2 ++
        eepromWrites (writeLoop st 0 (data.take n)).2.1.prog_address
          (data.drop n) =
      (writeLoop st 0 (data.take n)).2.2 ++
        eepromWrites ((st.prog_address + n) % 4294967296) (data.drop n)
    rw [c2, htake]

/-- Claim C4: SetExtendedAddress latches extended-address mode and the
32-bit little-endian address from bytes 2 to 5; while the mode is set,
every ReadProgramMemory, WriteProgramMemory, ReadDataMemory or
WriteDataMemory command ignores its legacy address field and keeps the
latched address; Connect resets the mode, after which such a command
recomputes the address from its 2-byte legacy field. -/
theorem C4_extended_address (st : Session) (d0 : Nat)
    (hd0 : d0 &&& 96 ≠ 32) :
    (∀ a b c d x y : Nat,
      (usbFunctionSetup st d0 9 a b c d x y).2.prog_address_newmode = 1 ∧
      (usbFunctionSetup st d0 9 a b c d x y).2.prog_address =
        (a + 256 * b + 65536 * c + 16777216 * d) % 4294967296) ∧
    (∀ op e f p4 p5 p6 p7 : Nat, (op = 4 ∨ op = 6 ∨ op = 7 ∨ op = 8) →
      st.prog_address_newmode = 1 →
      (usbFunctionSetup st d0 op e f p4 p5 p6 p7).2.prog_address =
        st.prog_address ∧
      (usbFunctionSetup st d0 op e f p4 p5 p6 p7).2.prog_address_newmode =
        1) ∧
    (∀ p2 p3 p4 p5 p6 p7 : Nat,
      (usbFunctionSetup st d0 1 p2 p3 p4 p5 p6 p7).2.prog_address_newmode =
        0) ∧
    (∀ op e f p4 p5 p6 p7 : Nat, (op = 4 ∨ op = 6 ∨ op = 7 ∨ op = 8) →
      st.prog_address_newmode = 0 → e < 256 →
      (usbFunctionSetup st d0 op e f p4 p5 p6 p7).2.prog_address =
        (f * 256 + e) % 4294967296) := by
  refine ⟨?_, ?_, ?_, ?_⟩
  · intro a b c d x y
    rw [usbFunctionSetup_vendor st d0 9 a b c d x y hd0]
    exact ⟨by simp [setupVendorRequest], by simp [setupVendorRequest]⟩
  · intro op e f p4 p5 p6 p7 hop hm
    rw [usbFunctionSetup_vendor st d0 op e f p4 p5 p6 p7 hd0]
    rcases hop with h | h | h | h <;> subst h <;>
      simp [setupVendorRequest, hm]
  · intro p2 p3 p4 p5 p6 p7
    rw [usbFunctionSetup_vendor st d0 1 p2 p3 p4 p5 p6 p7 hd0]
    simp [setupVendorRequest]
  · intro op e f p4 p5 p6 p7 hop hm he
    rw [usbFunctionSetup_vendor st d0 op e f p4 p5 p6 p7 hd0]
    rcases hop with h | h | h | h <;> subst h <;>
      simp [setupVendorRequest, hm, legacy_addr_eq e f he]

theorem readChunks_address (ls : List Nat) : ∀ (st : Session),
    (st.prog_state = 2 ∨ st.prog_state = 3) →
    (∀ l ∈ ls.dropLast, l = 8) → st.prog_address < 4294967296 →
    (readChunks st ls).1.prog_address =
      (st.prog_address + ls.sum) % 4294967296 := by
  induction ls with
  | nil =>
    intro st hst hdrop ha
    simp [readChunks, Nat.mod_eq_of_lt ha]
  | cons l rest ih =>
    intro st hst hdrop ha
    simp only [readChunks]
    rw [usbFunctionRead_valid st l hst]
    rcases rest with _ | ⟨l2, rest2⟩
    · simp only [readChunks]
      have hrl := readLoop_session l st ha
      split <;>
        simp [hrl, List.sum_cons]
    · have hl8 : l = 8 := hdrop l (by simp)
      subst hl8
      rw [if_neg (by omega)]
      have hrl := readLoop_session 8 st ha
      have hst2 : ((readLoop st 8).1.prog_state = 2 ∨
          (readLoop st 8).1.prog_state = 3) := by
        rw [hrl]; exact hst
      rw [ih _ hst2 (fun x hx => hdrop x (by simp at hx ⊢; tauto))
        (by rw [hrl]; exact Nat.mod_lt _ (by norm_num))]
      rw [hrl]
      simp only [Nat.mod_add_mod, List.sum_cons]
      have harr : st.prog_address + 8 + (l2 + rest2.sum) =
          st.prog_address + (8 + (l2 + rest2.sum)) := by omega
      rw [harr]

/-- Claim C5: address continuity. Over any partition of a write transfer
into chunks, and over any read-chunk sequence whose non-final pulls have
the full capacity 8, the address after N transferred bytes equals the
start address plus N (no 32-bit wrap occurring); and every single writer
byte advances the address by exactly 1, in every branch. -/
theorem C5_address_continuity :
    (∀ (st : Session) (cs : List (List Nat)),
      (st.prog_state = 1 ∨ st.prog_state = 4) →
      cs.join.length ≤ st.prog_nbytes → st.prog_nbytes ≤ 65535 →
      st.prog_address + cs.join.length < 4294967296 →
      (writeChunks st cs).1.prog_address =
        st.prog_address + cs.join.length) ∧
    (∀ (st : Session) (ls : List Nat),
      (st.prog_state = 2 ∨ st.prog_state = 3) →
      (∀ l ∈ ls.dropLast, l = 8) →
      st.prog_address + ls.sum < 4294967296 →
      (readChunks st ls).1.prog_address = st.prog_address + ls.sum) ∧
    (∀ (st : Session) (b : Nat),
      (writeStep st b).1.prog_address =
        (st.prog_address + 1) % 4294967296) := by
  refine ⟨?_, ?_, fun st b => writeStep_address st b⟩
  · intro st cs hst hlen hub ha
    rw [writeChunks_join cs st hst hlen hub (by omega)]
    obtain ⟨_, c2, _⟩ := writeLoop_run cs.join st 0 hst hlen hub (by omega)
    rw [c2]
    exact Nat.mod_eq_of_lt ha
  · intro st ls hst hdrop ha
    rw [readChunks_address ls st hst hdrop (by omega)]
    exact Nat.mod_eq_of_lt ha

/-- Claim C10, counterexample: pageSize 512 is at least 256 and a
multiple of 256, so the claimed natural flush period pageSize mod 256
would be 0 and predict no flushes, yet an armed 256-byte run flushes at
offset 255 (the 8-bit countdown wraps, giving period 256). -/
theorem C10_counterexample :
    flushAddrs (writeChunks (usbFunctionSetup session0 64 6 0 0 0 33 0 1).2
        [List.replicate 128 7, List.replicate 128 7]).2 = [255] ∧
    (usbFunctionSetup session0 64 6 0 0 0 33 0 1).2.prog_pagesize = 512 ∧
    (List.range 256).filter
      (fun k => decide ((k + 1) % (512 % 256) = 0)) = [] := by
  refine ⟨by decide, by decide, by decide⟩

/-- Claim C10, amended: prog_pagecounter is an 8-bit variable while
prog_pagesize is 16-bit with values up to 4095, so the arming reset
truncates the countdown to pageSize mod 256; for pageSize at least 256
the countdown stays below 256 and the forced-final-flush guard
pageCounter different from pageSize always holds, so with IsLastBlock
set a forced flush fires on the final byte even when the natural flush
of an exactly filled page fires there too; and the natural flush period
is pageSize mod 256 bytes, except that it is 256 bytes when pageSize is
a multiple of 256, by the 8-bit countdown wrap. -/
theorem C10_eight_bit_countdown (st : Session) (d0 d2 d3 d4 d5 d6 d7 : Nat)
    (hd0 : d0 &&& 96 ≠ 32) :
    (d5 &&& 1 ≠ 0 →
      (usbFunctionSetup st d0 6 d2 d3 d4 d5 d6 d7).2.prog_pagecounter =
        (usbFunctionSetup st d0 6 d2 d3 d4 d5 d6 d7).2.prog_pagesize %
          256) ∧
    (∀ s : Session, s.prog_pagecounter < 256 → 256 ≤ s.prog_pagesize →
      s.prog_pagecounter ≠ s.prog_pagesize) ∧
    (∀ (s : Session) (b : Nat), s.prog_pagecounter < 256 →
      (writeStep s b).1.prog_pagecounter < 256) ∧
    (∀ (s : Session) (data : List Nat) (r : Nat),
      s.prog_state = 1 → 256 ≤ s.prog_pagesize →
      s.prog_pagecounter = s.prog_pagesize % 256 →
      s.prog_blockflags &&& 2 = 0 →
      data.length = s.prog_nbytes → s.prog_nbytes ≤ 65535 →
      s.prog_address + data.length ≤ 4294967296 →
      flushAddrs (writeLoop s r data).2.2 =
        ((List.range data.length).filter (fun k =>
          decide ((k + 1) % (if s.prog_pagesize % 256 = 0 then 256
                             else s.prog_pagesize % 256) = 0))).map
          (fun k => s.prog_address + k)) ∧
    (∀ (s : Session) (b : Nat),
      s.prog_state = 1 → 256 ≤ s.prog_pagesize →
      s.prog_pagecounter = 1 → (s.prog_nbytes + 65535) % 65536 = 0 →
      s.prog_blockflags &&& 2 ≠ 0 →
      flushPairs (writeStep s b).2.1 =
        [(s.prog_address, b), (s.prog_address, b)]) := by
  refine ⟨?_, ?_, fun s b h => writeStep_pc_lt s b h, ?_, ?_⟩
  · intro h1
    rw [usbFunctionSetup_vendor st d0 6 d2 d3 d4 d5 d6 d7 hd0]
    have hbit : (d5 &&& 15) &&& 1 ≠ 0 := by
      rw [Nat.and_assoc, show (15 : Nat) &&& 1 = 1 from by decide]
      exact h1
    simp [setupVendorRequest, hbit]
    intro hmod
    exfalso
    apply h1
    rw [Nat.and_one_is_mod]
    exact hmod
  · intro s h1 h2
    omega
  · intro s data r h1 h2 hpc hbf hlen hub ha
    unfold flushAddrs
    rw [writeLoop_flush_trace data s r h1 (by omega)
      (by rw [hpc]; exact Nat.mod_lt _ (by norm_num)) hlen hub ha]
    rw [if_neg (fun hc => hc.1 hbf)]
    rw [List.append_nil, hpc]
    rw [flushPattern_filter data.length (s.prog_pagesize % 256)
      s.prog_pagesize (Nat.mod_lt _ (by norm_num))]
    rw [List.map_map]
    have hT : 0 < (if s.prog_pagesize % 256 = 0 then 256
        else s.prog_pagesize % 256) := by
      split <;> omega
    have hfilt : List.filter (fun k =>
        decide ((if s.prog_pagesize % 256 = 0 then 256
                 else s.prog_pagesize % 256) ≤ k + 1 ∧
          (k + 1 - (if s.prog_pagesize % 256 = 0 then 256
                    else s.prog_pagesize % 256)) %
            (if s.prog_pagesize % 256 = 0 then 256
             else s.prog_pagesize % 256) = 0)) (List.range data.length) =
        List.filter (fun k => decide ((k + 1) %
          (if s.prog_pagesize % 256 = 0 then 256
           else s.prog_pagesize % 256) = 0)) (List.range data.length) := by
      apply List.filter_congr
      intro k hk
      rw [decide_eq_decide]
      exact period_mod_iff _ k hT
    rw [hfilt]
    apply List.map_congr_left
    intro k hk
    rfl
  · intro s b h1 h2 hpc hnb hbf
    have h256 : ((1 : Nat) + 255) % 256 = 0 := by norm_num
    have hne : s.prog_pagesize % 256 ≠ s.prog_pagesize := by
      have hx : s.prog_pagesize % 256 < 256 := Nat.mod_lt _ (by norm_num)
      omega
    rw [writeStep_events_paged_hit s b h1 (by omega) hnb, hpc]
    simp [flushPairs, h256, hne, hbf]

theorem C1_paged_write_flushes_witness :
    session0.prog_address_newmode = 0 ∧ (0 : Nat) < 256 ∧
    (List.replicate 32 (List.replicate 8 (171 : Nat))).join.length = 256 ∧
    (flushAddrs (writeChunks (usbFunctionSetup session0 64 6 0 0 64 1 0 1).2
        (List.replicate 32 (List.replicate 8 171))).2 =
      [(usbFunctionSetup session0 64 6 0 0 64 1 0 1).2.prog_address + 63,
       (usbFunctionSetup session0 64 6 0 0 64 1 0 1).2.prog_address + 127,
       (usbFunctionSetup session0 64 6 0 0 64 1 0 1).2.prog_address + 191,
       (usbFunctionSetup session0 64 6 0 0 64 1 0 1).2.prog_address + 255] ∧
     (usbFunctionSetup session0 64 6 0 0 64 1 0 1).2.prog_pagesize = 64 ∧
     (∀ p ∈ runStates (usbFunctionSetup session0 64 6 0 0 64 1 0 1).2
        (List.replicate 32 (List.replicate 8 171)).join,
        hasFlush p.2 = true →
          p.1.prog_pagecounter =
            (usbFunctionSetup session0 64 6 0 0 64 1 0 1).2.prog_pagesize)) :=
  ⟨rfl, by decide, by decide,
   C1_paged_write_flushes session0 0 0 _ rfl (by decide) (by decide)
     (by decide)⟩

theorem C2_forced_final_flush_witness :
    session0.prog_address_newmode = 0 ∧
    (List.replicate 25 (List.replicate 8 (9 : Nat))).join.length = 200 ∧
    flushPairs (writeChunks (usbFunctionSetup session0 64 6 0 0 64 3 200 0).2
        (List.replicate 25 (List.replicate 8 9))).2 =
      [((usbFunctionSetup session0 64 6 0 0 64 3 200 0).2.prog_address + 63,
        (List.replicate 25 (List.replicate 8 (9 : Nat))).join.getD 63 0),
       ((usbFunctionSetup session0 64 6 0 0 64 3 200 0).2.prog_address + 127,
        (List.replicate 25 (List.replicate 8 (9 : Nat))).join.getD 127 0),
       ((usbFunctionSetup session0 64 6 0 0 64 3 200 0).2.prog_address + 191,
        (List.replicate 25 (List.replicate 8 (9 : Nat))).join.getD 191 0),
       ((usbFunctionSetup session0 64 6 0 0 64 3 200 0).2.prog_address + 199,
        (List.replicate 25 (List.replicate 8 (9 : Nat))).join.getD 199 0)] :=
  ⟨rfl, by decide,
   (C2_forced_final_flush session0 0 0 _ rfl (by decide) (by decide)
     (by decide)).1⟩

theorem C3_remaining_bytes_witness :
    (({ session0 with prog_state := 1, prog_nbytes := 3 } :
        Session).prog_state = 1 ∨
      ({ session0 with prog_state := 1, prog_nbytes := 3 } :
        Session).prog_state = 4) ∧
    ([(1 : Nat), 2].length ≤
      ({ session0 with prog_state := 1, prog_nbytes := 3 } :
        Session).prog_nbytes) ∧
    ((usbFunctionWrite { session0 with prog_state := 1, prog_nbytes := 3 }
        [1, 2]).2.1.prog_nbytes =
      ({ session0 with prog_state := 1, prog_nbytes := 3 } :
        Session).prog_nbytes - [(1 : Nat), 2].length ∧
     ((usbFunctionWrite { session0 with prog_state := 1, prog_nbytes := 3 }
        [1, 2]).2.1.prog_state = 0 ↔
      ([(1 : Nat), 2] ≠ [] ∧ [(1 : Nat), 2].length =
        ({ session0 with prog_state := 1, prog_nbytes := 3 } :
          Session).prog_nbytes))) ∧
    (usbFunctionRead session0 5).2.1.prog_nbytes = session0.prog_nbytes :=
  ⟨Or.inl rfl, by decide,
   C3_remaining_bytes.1 { session0 with prog_state := 1, prog_nbytes := 3 }
     [1, 2] (Or.inl rfl) (by decide) (by decide) (by decide),
   C3_remaining_bytes.2 session0 5⟩

theorem C4_extended_address_witness :
    (64 : Nat) &&& 96 ≠ 32 ∧
    (usbFunctionSetup session0 64 9 10 20 30 40 0 0).2.prog_address_newmode =
      1 ∧
    (usbFunctionSetup session0 64 9 10 20 30 40 0 0).2.prog_address =
      (10 + 256 * 20 + 65536 * 30 + 16777216 * 40) % 4294967296 :=
  ⟨by decide,
   ((C4_extended_address session0 64 (by decide)).1 10 20 30 40 0 0).1,
   ((C4_extended_address session0 64 (by decide)).1 10 20 30 40 0 0).2⟩

theorem C5_address_continuity_witness :
    (({ session0 with prog_state := 1, prog_nbytes := 16 } :
        Session).prog_state = 1 ∨
      ({ session0 with prog_state := 1, prog_nbytes := 16 } :
        Session).prog_state = 4) ∧
    ([[(1 : Nat), 2, 3], [4, 5]].join.length ≤
      ({ session0 with prog_state := 1, prog_nbytes := 16 } :
        Session).prog_nbytes) ∧
    (writeChunks { session0 with prog_state := 1, prog_nbytes := 16 }
        [[1, 2, 3], [4, 5]]).1.prog_address =
      ({ session0 with prog_state := 1, prog_nbytes := 16 } :
          Session).prog_address +
        [[(1 : Nat), 2, 3], [4, 5]].join.length :=
  ⟨Or.inl rfl, by decide,
   C5_address_continuity.1 { session0 with prog_state := 1, prog_nbytes := 16 }
     [[1, 2, 3], [4, 5]] (Or.inl rfl) (by decide) (by decide) (by decide)⟩

theorem C6_state_guard_witness :
    (session0.prog_state ≠ 2 ∧ session0.prog_state ≠ 3) ∧
    (session0.prog_state ≠ 1 ∧ session0.prog_state ≠ 4) ∧
    usbFunctionRead session0 8 = (255, session0, []) ∧
    usbFunctionWrite session0 [1] = (255, session0, []) :=
  ⟨⟨by decide, by decide⟩, ⟨by decide, by decide⟩,
   (C6_state_guard session0 8 [1]).1 ⟨by decide, by decide⟩,
   (C6_state_guard session0 8 [1]).2 ⟨by decide, by decide⟩⟩

theorem C7_short_chunk_idle_witness :
    (({ session0 with prog_state := 2, prog_nbytes := 9 } :
        Session).prog_state = 2 ∨
      ({ session0 with prog_state := 2, prog_nbytes := 9 } :
        Session).prog_state = 3) ∧
    (3 : Nat) < 8 ∧
    (usbFunctionRead { session0 with prog_state := 2, prog_nbytes := 9 }
        3).1 = 3 ∧
    (usbFunctionRead { session0 with prog_state := 2, prog_nbytes := 9 }
        3).2.1.prog_state = 0 :=
  ⟨Or.inl rfl, by decide,
   (C7_short_chunk_idle { session0 with prog_state := 2, prog_nbytes := 9 }
      3 (Or.inl rfl) (by decide)).1,
   (C7_short_chunk_idle { session0 with prog_state := 2, prog_nbytes := 9 }
      3 (Or.inl rfl) (by decide)).2.1⟩

theorem C8_packed_decode_witness :
    (64 : Nat) &&& 96 ≠ 32 ∧ (255 : Nat) < 256 ∧ (243 : Nat) < 256 ∧
    ((usbFunctionSetup session0 64 6 0 0 255 243 0 0).2.prog_pagesize =
      255 + ((243 &&& 240) <<< 4) ∧
     (usbFunctionSetup session0 64 6 0 0 255 243 0 0).2.prog_pagesize ≤
       4095 ∧
     (usbFunctionSetup session0 64 6 0 0 255 243 0 0).2.prog_blockflags =
       243 &&& 15 ∧
     (usbFunctionSetup session0 64 6 0 0 255 243 0 0).2.prog_blockflags &&&
       1 = 243 &&& 1 ∧
     (usbFunctionSetup session0 64 6 0 0 255 243 0 0).2.prog_blockflags &&&
       2 = 243 &&& 2) :=
  ⟨by decide, by decide, by decide,
   C8_packed_decode session0 64 0 0 255 243 0 0 (by decide) (by decide)
     (by decide)⟩

theorem C9_overrun_eeprom_route_witness :
    ({ session0 with prog_state := 1, prog_nbytes := 2 } :
      Session).prog_state = 1 ∧
    [(5 : Nat), 6, 7].length = 2 + 1 ∧
    ((usbFunctionWrite { session0 with prog_state := 1, prog_nbytes := 2 }
        [5, 6, 7]).1 = 1 ∧
     (usbFunctionWrite { session0 with prog_state := 1, prog_nbytes := 2 }
        [5, 6, 7]).2.1.prog_state = 0 ∧
     (usbFunctionWrite { session0 with prog_state := 1, prog_nbytes := 2 }
        [5, 6, 7]).2.1.prog_nbytes = 65536 - 1 ∧
     (usbFunctionWrite { session0 with prog_state := 1, prog_nbytes := 2 }
        [5, 6, 7]).2.2 =
       (writeLoop { session0 with prog_state := 1, prog_nbytes := 2 } 0
         ([(5 : Nat), 6, 7].take 2)).2.2 ++
         eepromWrites
           ((({ session0 with prog_state := 1, prog_nbytes := 2 } :
               Session).prog_address + 2) % 4294967296)
           ([(5 : Nat), 6, 7].drop 2)) :=
  ⟨rfl, by decide,
   C9_overrun_eeprom_route { session0 with prog_state := 1, prog_nbytes := 2 }
     [5, 6, 7] 2 1 rfl rfl (by decide) (by decide) (by decide) (by decide)
     (by decide) (by decide)⟩

theorem C10_eight_bit_countdown_witness :
    (64 : Nat) &&& 96 ≠ 32 ∧
    (sess510).prog_state =
      1 ∧
    flushAddrs (writeLoop sess510 0
        (List.replicate 256 7)).2.2 =
      ((List.range (List.replicate 256 (7 : Nat)).length).filter (fun k =>
        decide ((k + 1) %
          (if (sess510).prog_pagesize % 256 = 0 then 256
           else (sess510).prog_pagesize % 256) = 0))).map
        (fun k => (sess510).prog_address + k) :=
  ⟨by decide, rfl,
   (C10_eight_bit_countdown session0 64 0 0 0 0 0 0 (by decide)).2.2.2.1
     sess510
     (List.replicate 256 7) 0 rfl (by decide) (by decide) (by decide)
     (by decide) (by decide) (by decide)⟩
